import Mathlib

/-!
Verification of the grid layout container (`src/table.ts`, class `Table`).

Numbers are modelled as exact rationals (`ℚ`).  JavaScript `undefined` /
`NaN` propagation in the layout arithmetic is modelled with `Option ℚ`
(`none` standing for an undefined or NaN value).  A thrown exception is
modelled by an error value of `TableErr`; since a JavaScript method that
throws after mutating `this` leaves the mutations in place, the stateful
operations return the post-call table together with an optional error.
-/

namespace Plottable

/-- Opaque child component, as seen by the `Table` layout code.  Modelled
from the spec: the base `Component` class is not part of the sources under
verification; the spec describes a component as exposing a minimum width,
a minimum height, the two fixed-axis booleans, and says the placeholder
(a bare base `Component`, recognised in `addComponent` via
`constructor.name === "Component"`) has zero minimum size and is fixed in
both axes.  `placeholder` records whether the object is a bare base
`Component` instance. -/
structure Comp where
  rowMin : ℚ
  colMin : ℚ
  fixedWidth : Bool
  fixedHeight : Bool
  placeholder : Bool
deriving DecidableEq

/-- Result of `new Component()`: the placeholder used to fill empty cells. -/
def placeholderComp : Comp :=
  { rowMin := 0, colMin := 0, fixedWidth := true, fixedHeight := true, placeholder := true }

/-- Errors thrown by the `Table` methods.  `typeError` stands for the
`TypeError` a JavaScript `reduce` with no seed throws on an empty array. -/
inductive TableErr
  | invalidMutation
  | cellOccupied
  | notSettable
  | insufficientSpace
  | typeError
deriving DecidableEq

/-- Length of the shortest row (`d3.zip` truncates to the shortest
argument); `0` when there are no rows, matching `d3.zip()` returning `[]`. -/
def minLen : List (List α) → ℕ
  | [] => 0
  | r :: rs => rs.foldl (fun n row => min n row.length) r.length

/-- `d3.transpose` (implemented via `d3.zip`): entry `j` collects element
`j` of every row, for `j` below the length of the shortest row. -/
def d3transpose (m : List (List α)) : List (List α) :=
  (List.range (minLen m)).map (fun j => m.filterMap (fun r => r[j]?))

/-- `d3.max` over a list of numbers: `none` on an empty list
(JavaScript `undefined`). -/
def d3max (l : List ℚ) : Option ℚ :=
  match l with
  | [] => none
  | x :: xs => some (xs.foldl max x)

/-- Total variant of the maximum, used to state theorems. -/
def maxD (l : List ℚ) : ℚ :=
  match l with
  | [] => 0
  | x :: xs => xs.foldl max x

/-- `d3.sum` over an array that may hold `undefined` entries: undefined
entries are skipped. -/
def d3sumOpt (l : List (Option ℚ)) : ℚ :=
  (l.filterMap id).sum

/-- `array.reduce((a, b) => a && b)` with no seed: throws (`none`) on an
empty array, otherwise folds conjunction from the first element. -/
def reduceAnd : List Bool → Option Bool
  | [] => none
  | b :: bs => some (bs.foldl and b)

/-- State of a `Table` object.  `rowWeights` / `colWeights` entries are
`none` for the `null` "unset" marker.  `attached` models
`this.element != null` (the table has been anchored).  The four layout
fields at the end are the ones the base `Component.computeLayout` stores;
modelled from the spec: a component's own layout operation records the
offset and allotted size it was given. -/
structure Table where
  rowPadding : ℚ
  colPadding : ℚ
  rows : List (List Comp)
  rowMinimums : List (Option ℚ)
  colMinimums : List (Option ℚ)
  rowWeights : List (Option ℚ)
  colWeights : List (Option ℚ)
  nRows : ℕ
  nCols : ℕ
  attached : Bool
  xOffset : ℚ
  yOffset : ℚ
  availableWidth : ℚ
  availableHeight : ℚ
deriving DecidableEq

/-- Largest row length of the initial grid (`d3.max(rows, r => r.length)`,
`0` for an empty grid). -/
def maxLen (m : List (List α)) : ℕ :=
  (m.map List.length).foldl max 0

/-- The `Table` constructor: `null` cells (here `none`) become fresh
placeholder components; the counters and weight vectors are derived from
the cleaned grid.  Note the constructor performs no padding. -/
def mkTable (input : List (List (Option Comp))) : Table :=
  let rows := input.map (fun r => r.map (fun c => c.getD placeholderComp))
  { rowPadding := 0
    colPadding := 0
    rows := rows
    rowMinimums := []
    colMinimums := []
    rowWeights := rows.map (fun _ => none)
    colWeights := (d3transpose rows).map (fun _ => none)
    nRows := rows.length
    nCols := maxLen rows
    attached := false
    xOffset := 0
    yOffset := 0
    availableWidth := 0
    availableHeight := 0 }

/-- Cell lookup: `none` when the position is outside the stored grid. -/
def slot (t : Table) (i j : ℕ) : Option Comp :=
  (t.rows[i]?).bind (fun r => r[j]?)

/-- Inner loop of `padTableToSize`: extend a row with placeholders up to
`nC` slots (rows already at least that long are left unchanged). -/
def padRow (r : List Comp) (nC : ℕ) : List Comp :=
  r ++ List.replicate (nC - r.length) placeholderComp

/-- `Table.padTableToSize(nRows, nCols)`: create missing rows (with an
unset weight), pad every row below `nR` with placeholders up to `nC`
slots, and mark missing column weights below `nC` as unset. -/
def padTableToSize (t : Table) (nR nC : ℕ) : Table :=
  { t with
    rows := (List.range nR).map (fun i => padRow ((t.rows[i]?).getD []) nC) ++ t.rows.drop nR
    rowWeights :=
      (List.range nR).map (fun i =>
        if i < t.rows.length then (t.rowWeights[i]?).getD none else none) ++ t.rowWeights.drop nR
    colWeights :=
      (List.range nC).map (fun j => (t.colWeights[j]?).getD none) ++ t.colWeights.drop nC }

/-- State of the table just after the `padTableToSize` call inside
`addComponent`: the counters are raised to `max row nRows` /
`max col nCols` and the grid padded to one more than each. -/
def addPadded (t : Table) (row col : ℕ) : Table :=
  padTableToSize { t with nRows := max row t.nRows, nCols := max col t.nCols }
    (max row t.nRows + 1) (max col t.nCols + 1)

/-- `Table.addComponent(row, col, component)`.  Returns the post-call
table state together with the error thrown, if any: the padding performed
before the occupied-cell check is kept even when the call then throws. -/
def addComponent (t : Table) (row col : ℕ) (c : Comp) : Table × Option TableErr :=
  if t.attached then (t, some .invalidMutation)
  else
    let t1 := addPadded t row col
    let cur := (((t1.rows[row]?).getD [])[col]?).getD placeholderComp
    if cur.placeholder = false then (t1, some .cellOccupied)
    else ({ t1 with rows := t1.rows.set row (((t1.rows[row]?).getD []).set col c) }, none)

/-- Per-row minimums: `d3.max` of the children's own `rowMinimum()` over
each row (`none` for an empty row, i.e. JavaScript `undefined`). -/
def rowMinsOf (rows : List (List Comp)) : List (Option ℚ) :=
  rows.map (fun r => d3max (r.map Comp.rowMin))

/-- Per-column minimums over the transposed grid. -/
def colMinsOf (rows : List (List Comp)) : List (Option ℚ) :=
  (d3transpose rows).map (fun col => d3max (col.map Comp.colMin))

/-- Value returned by `Table.rowMinimum()`: sum of the per-row minimums
plus `rowPadding * (rows.length - 1)`. -/
def rowMinValue (t : Table) : ℚ :=
  d3sumOpt (rowMinsOf t.rows) + t.rowPadding * ((t.rows.length : ℚ) - 1)

/-- Value returned by `Table.colMinimum()`. -/
def colMinValue (t : Table) : ℚ :=
  d3sumOpt (colMinsOf t.rows) + t.colPadding * (((d3transpose t.rows).length : ℚ) - 1)

/-- `Table.rowMinimum(newVal?)`: with an argument it throws; without one
it recomputes and stores the per-row minimums and returns their sum plus
the inter-row padding. -/
def rowMinimum (t : Table) : Option ℚ → Except TableErr (Table × ℚ)
  | some _ => .error .notSettable
  | none => .ok ({ t with rowMinimums := rowMinsOf t.rows }, rowMinValue t)

/-- `Table.colMinimum(newVal?)`. -/
def colMinimum (t : Table) : Option ℚ → Except TableErr (Table × ℚ)
  | some _ => .error .notSettable
  | none => .ok ({ t with colMinimums := colMinsOf t.rows }, colMinValue t)

/-- One entry of `Table.calcComponentWeights`: an explicitly set weight is
returned verbatim; an unset weight is inferred from the fixities of group
`i`, and the seedless `reduce` throws (`none`) when the group is empty or
missing. -/
def resolveWeight (groups : List (List Comp)) (fix : Comp → Bool) (i : ℕ) (w : Option ℚ) :
    Option ℚ :=
  match w with
  | some q => some q
  | none =>
    match groups[i]? with
    | none => none
    | some g =>
      match g.map fix with
      | [] => none
      | b :: bs => some (if bs.foldl and b then 0 else 1)

/-- Recursion underlying `Table.calcComponentWeights`, tracking the index
of the current entry; any throwing entry makes the whole call throw. -/
def calcWeightsFrom (groups : List (List Comp)) (fix : Comp → Bool) :
    ℕ → List (Option ℚ) → Option (List ℚ)
  | _, [] => some []
  | i, w :: ws =>
    match resolveWeight groups fix i w, calcWeightsFrom groups fix (i + 1) ws with
    | some q, some qs => some (q :: qs)
    | _, _ => none

/-- `Table.calcComponentWeights(setWeights, componentGroups, fixityAccessor)`. -/
def calcComponentWeights (setWeights : List (Option ℚ)) (groups : List (List Comp))
    (fix : Comp → Bool) : Option (List ℚ) :=
  calcWeightsFrom groups fix 0 setWeights

/-- Row weights as used by `computeLayout` (line 85 of `table.ts`):
row weights consult `isFixedHeight`. -/
def rowWeightsUsed (t : Table) : Option (List ℚ) :=
  calcComponentWeights t.rowWeights t.rows Comp.fixedHeight

/-- Column weights as used by `computeLayout` (line 86 of `table.ts`):
column weights consult `isFixedWidth` over the transposed grid. -/
def colWeightsUsed (t : Table) : Option (List ℚ) :=
  calcComponentWeights t.colWeights (d3transpose t.rows) Comp.fixedWidth

/-- `Table.calcProportionalSpace(weights, freeSpace)`. -/
def calcProportionalSpace (weights : List ℚ) (freeSpace : ℚ) : List ℚ :=
  let weightSum := weights.sum
  if weightSum = 0 then
    let numGroups := weights.length
    weights.map (fun _ => freeSpace / (numGroups : ℚ))
  else
    weights.map (fun w => freeSpace * w / weightSum)

/-- `Table.fixedSpace`'s `componentGroup.map(groupIsFixed)`: evaluating
the per-group seedless reductions, throwing when any group is empty. -/
def mapReduceAnd (fix : Comp → Bool) : List (List Comp) → Option (List Bool)
  | [] => some []
  | g :: gs =>
    match reduceAnd (g.map fix), mapReduceAnd fix gs with
    | some b, some bs => some (b :: bs)
    | _, _ => none

/-- `Table.fixedSpace(componentGroup, fixityAccessor)`: an AND-reduction
of per-group AND-reductions, both seedless. -/
def fixedSpace (groups : List (List Comp)) (fix : Comp → Bool) : Option Bool :=
  match mapReduceAnd fix groups with
  | none => none
  | some bs => reduceAnd bs

/-- `Table.isFixedWidth()`. -/
def isFixedWidth (t : Table) : Option Bool :=
  fixedSpace (d3transpose t.rows) Comp.fixedWidth

/-- `Table.isFixedHeight()`. -/
def isFixedHeight (t : Table) : Option Bool :=
  fixedSpace t.rows Comp.fixedHeight

/-- Record of one recursive `component.computeLayout` invocation made
while laying out the grid.  `Option ℚ` fields are `none` when the
corresponding JavaScript value would be `undefined` or `NaN`. -/
structure ChildCall where
  row : ℕ
  col : ℕ
  x : Option ℚ
  y : Option ℚ
  w : Option ℚ
  h : Option ℚ
deriving DecidableEq

/-- Addition propagating `undefined`/`NaN`. -/
def optAdd : Option ℚ → Option ℚ → Option ℚ
  | some a, some b => some (a + b)
  | _, _ => none

/-- Inner loop of the layout pass: walk one row, advancing the running
horizontal offset by `colWidths[colIndex] + colPadding` after each cell. -/
def layoutRow (rIdx : ℕ) (yv hv : Option ℚ) (colWidths : List (Option ℚ)) (colPad : ℚ) :
    ℕ → Option ℚ → List Comp → List ChildCall
  | _, _, [] => []
  | c, x, _ :: rest =>
    let w := (colWidths[c]?).getD none
    ⟨rIdx, c, x, yv, w, hv⟩ ::
      layoutRow rIdx yv hv colWidths colPad (c + 1) (optAdd x (optAdd w (some colPad))) rest

/-- Outer loop of the layout pass: walk the rows, advancing the running
vertical offset by `rowHeights[rowIndex] + rowPadding` after each row. -/
def layoutRows (colWidths rowHeights : List (Option ℚ)) (rowPad colPad : ℚ) :
    ℕ → Option ℚ → List (List Comp) → List ChildCall
  | _, _, [] => []
  | r, y, row :: rest =>
    let h := (rowHeights[r]?).getD none
    layoutRow r y h colWidths colPad 0 (some 0) row ++
      layoutRows colWidths rowHeights rowPad colPad (r + 1) (optAdd y (optAdd h (some rowPad))) rest

/-- Post-call state of the table: the superclass call stores the offset
and allotted size (modelled from the spec), and the two minimum queries
invoked for the free-space computation store the fresh per-row and
per-column minimums — all before the free-space check can throw. -/
def layoutT3 (t : Table) (x y aw ah : ℚ) : Table :=
  { t with
    xOffset := x, yOffset := y, availableWidth := aw, availableHeight := ah,
    colMinimums := colMinsOf t.rows, rowMinimums := rowMinsOf t.rows }

/-- Child layout invocations made on the success path of `computeLayout`:
proportional space per weight vector, summed with the stored minimums via
`d3.zip`, then the two nested offset-advancing loops. -/
def successCalls (t : Table) (aw ah : ℚ) (rws cws : List ℚ) : List ChildCall :=
  let rowProp := calcProportionalSpace rws (ah - rowMinValue t)
  let colProp := calcProportionalSpace cws (aw - colMinValue t)
  let rowHeights := (rowProp.zip (rowMinsOf t.rows)).map (fun p => p.2.map (fun q => p.1 + q))
  let colWidths := (colProp.zip (colMinsOf t.rows)).map (fun p => p.2.map (fun q => p.1 + q))
  layoutRows colWidths rowHeights t.rowPadding t.colPadding 0 (some 0) t.rows

/-- `Table.computeLayout(xOffset, yOffset, availableWidth, availableHeight)`.
Returns the post-call table, the error thrown if any, and the list of
recursive child layout invocations in the order they are made. -/
def computeLayout (t : Table) (x y aw ah : ℚ) :
    Table × Option TableErr × List ChildCall :=
  let t3 := layoutT3 t x y aw ah
  let freeWidth := aw - colMinValue t
  let freeHeight := ah - rowMinValue t
  if freeWidth < 0 ∨ freeHeight < 0 then (t3, some .insufficientSpace, [])
  else
    match rowWeightsUsed t, colWeightsUsed t with
    | some rws, some cws => (t3, none, successCalls t aw ah rws cws)
    | _, _ => (t3, some .typeError, [])

/-- Structural sanity of a table state: the stored grid never exceeds the
`nRows`/`nCols` counters by more than the one-row/one-column slack that
`addComponent`'s padding introduces, and the weight vectors are in step
with the grid.  Holds for every table built by `mkTable` and preserved by
`addComponent`. -/
def TableWF (t : Table) : Prop :=
  t.rows.length ≤ t.nRows + 1 ∧
  (∀ r ∈ t.rows, r.length ≤ t.nCols + 1) ∧
  t.rowWeights.length = t.rows.length ∧
  t.colWeights.length ≤ t.nCols + 1

instance (t : Table) : Decidable (TableWF t) := by
  unfold TableWF; infer_instance

end Plottable

namespace Plottable

/-! ### Helper lemmas -/

lemma filterMap_id_map_some (l : List ℚ) : (l.map some).filterMap id = l := by
  induction l with
  | nil => rfl
  | cons x xs ih => simp [ih]

lemma sum_map_const_div (l : List ℚ) (f : ℚ) (h : l ≠ []) :
    (l.map (fun _ => f / (l.length : ℚ))).sum = f := by
  have hn0 : l.length ≠ 0 := by simpa using h
  have hn : (l.length : ℚ) ≠ 0 := by exact_mod_cast hn0
  rw [List.map_const', List.sum_replicate, nsmul_eq_mul]
  field_simp

/-- Claim C1, counterexample: on the empty weight vector with free space
`10` the allocator returns no shares at all, so the shares sum to `0`,
not to the free space — "in all cases the shares sum exactly to
freeSpace" fails for a zero-row (or zero-column) table. -/
theorem c1_empty_weights_cex :
    calcProportionalSpace ([] : List ℚ) 10 = [] ∧
    (calcProportionalSpace ([] : List ℚ) 10).sum ≠ 10 := by
  constructor
  · rfl
  · show ([] : List ℚ).sum ≠ 10
    norm_num

/-- Claim C1 (amended: the shares sum exactly to the free space whenever
the weight vector is nonempty): with a zero weight sum every entry
receives `freeSpace / count`; otherwise entry `i` receives
`freeSpace * w[i] / sum(w)`; the three worked examples hold; and for a
nonempty weight vector the shares sum exactly to `freeSpace`. -/
theorem c1_proportional_allocation (w : List ℚ) (f : ℚ) (hf : 0 ≤ f) :
    (w.sum = 0 → calcProportionalSpace w f = w.map (fun _ => f / (w.length : ℚ))) ∧
    (w.sum ≠ 0 → ∀ i (hi : i < w.length),
      (calcProportionalSpace w f)[i]? = some (f * w.getD i 0 / w.sum)) ∧
    (w ≠ [] → (calcProportionalSpace w f).sum = f) ∧
    calcProportionalSpace [1, 1] (10 : ℚ) = [5, 5] ∧
    calcProportionalSpace [0, 0] (10 : ℚ) = [5, 5] ∧
    calcProportionalSpace [1, 3] (20 : ℚ) = [5, 15] := by
  refine ⟨?_, ?_, ?_, by norm_num [calcProportionalSpace], by norm_num [calcProportionalSpace],
    by norm_num [calcProportionalSpace]⟩
  · intro hs
    simp [calcProportionalSpace, hs]
  · intro hs i hi
    simp only [calcProportionalSpace, if_neg hs]
    rw [List.getElem?_map, List.getElem?_eq_getElem hi, List.getD_eq_getElem w 0 hi]
    rfl
  · intro hne
    by_cases hs : w.sum = 0
    · rw [show calcProportionalSpace w f = w.map (fun _ => f / (w.length : ℚ)) by
        simp [calcProportionalSpace, hs]]
      exact sum_map_const_div w f hne
    · have h2 : calcProportionalSpace w f = w.map (fun x => x * (f / w.sum)) := by
        simp only [calcProportionalSpace, if_neg hs]
        exact List.map_congr_left (fun x _ => by rw [mul_comm f x, mul_div_assoc])
      rw [h2, List.sum_map_mul_right, List.map_id']
      field_simp

/-- Claim C1, witness: the amended theorem applied at weights `[1, 3]`
and free space `20`. -/
theorem c1_witness :
    (0 : ℚ) ≤ 20 ∧
    (([1, 3] : List ℚ).sum ≠ 0 → ∀ i (hi : i < ([1, 3] : List ℚ).length),
      (calcProportionalSpace [1, 3] 20)[i]? = some (20 * ([1, 3] : List ℚ).getD i 0 / ([1, 3] : List ℚ).sum)) ∧
    (calcProportionalSpace [1, 3] (20 : ℚ)).sum = 20 :=
  ⟨by norm_num,
   (c1_proportional_allocation [1, 3] 20 (by norm_num)).2.1,
   (c1_proportional_allocation [1, 3] 20 (by norm_num)).2.2.1 (by simp)⟩

end Plottable

namespace Plottable

lemma foldl_max_mem (xs : List ℚ) (x : ℚ) : xs.foldl max x ∈ x :: xs := by
  induction xs generalizing x with
  | nil => simp
  | cons y ys ih =>
    have h := ih (max x y)
    simp only [List.foldl_cons]
    rcases List.mem_cons.1 h with h1 | h2
    · rcases max_choice x y with hx | hy
      · rw [h1, hx]; exact List.mem_cons_self _ _
      · rw [h1, hy]; simp
    · simp [List.mem_cons.2 (Or.inr h2)]

lemma le_foldl_max (xs : List ℚ) (x : ℚ) : ∀ a ∈ x :: xs, a ≤ xs.foldl max x := by
  induction xs generalizing x with
  | nil => intro a ha; simp at ha; simp [ha]
  | cons y ys ih =>
    intro a ha
    simp only [List.foldl_cons]
    rcases List.mem_cons.1 ha with h1 | h2
    · subst h1
      exact le_trans (le_max_left a y) (ih (max a y) _ (List.mem_cons_self _ _))
    · rcases List.mem_cons.1 h2 with h3 | h4
      · subst h3
        exact le_trans (le_max_right x a) (ih (max x a) _ (List.mem_cons_self _ _))
      · exact ih (max x y) a (List.mem_cons.2 (Or.inr h4))

/-- The value `q` is the maximum of the list `l`. -/
def isMaxOf (q : ℚ) (l : List ℚ) : Prop :=
  q ∈ l ∧ ∀ x ∈ l, x ≤ q

lemma maxD_isMax (l : List ℚ) (h : l ≠ []) : isMaxOf (maxD l) l := by
  cases l with
  | nil => exact absurd rfl h
  | cons x xs => exact ⟨foldl_max_mem xs x, le_foldl_max xs x⟩

lemma d3max_eq_maxD (l : List ℚ) (h : l ≠ []) : d3max l = some (maxD l) := by
  cases l with
  | nil => exact absurd rfl h
  | cons x xs => rfl

lemma rowMinsOf_eq_map (rows : List (List Comp)) (h : ∀ r ∈ rows, r ≠ []) :
    rowMinsOf rows = (rows.map (fun r => maxD (r.map Comp.rowMin))).map some := by
  unfold rowMinsOf
  rw [List.map_map]
  refine List.map_congr_left (fun r hr => ?_)
  have hne : r.map Comp.rowMin ≠ [] := by simpa using h r hr
  rw [d3max_eq_maxD _ hne]; rfl

lemma d3sumOpt_map_some (l : List ℚ) : d3sumOpt (l.map some) = l.sum := by
  unfold d3sumOpt
  rw [filterMap_id_map_some]

lemma foldl_min_le_init (rs : List (List α)) :
    ∀ n : ℕ, rs.foldl (fun n row => min n row.length) n ≤ n := by
  induction rs with
  | nil => intro n; exact le_refl n
  | cons y ys ih =>
    intro n
    exact le_trans (ih (min n y.length)) (min_le_left _ _)

lemma foldl_min_le_mem (rs : List (List α)) :
    ∀ (n : ℕ) (r : List α), r ∈ rs → rs.foldl (fun n row => min n row.length) n ≤ r.length := by
  induction rs with
  | nil => intro n r hr; simp at hr
  | cons y ys ih =>
    intro n r hr
    rcases List.mem_cons.1 hr with h1 | h2
    · subst h1
      exact le_trans (foldl_min_le_init ys (min n r.length)) (min_le_right _ _)
    · exact ih (min n y.length) r h2

lemma minLen_le_of_mem {m : List (List α)} {r : List α} (h : r ∈ m) : minLen m ≤ r.length := by
  cases m with
  | nil => simp at h
  | cons y ys =>
    rcases List.mem_cons.1 h with h1 | h2
    · subst h1; exact foldl_min_le_init ys r.length
    · exact foldl_min_le_mem ys y.length r h2

lemma foldl_min_const (rs : List (List α)) (mw : ℕ) (h : ∀ r ∈ rs, r.length = mw) :
    rs.foldl (fun n row => min n row.length) mw = mw := by
  induction rs with
  | nil => rfl
  | cons y ys ih =>
    have hy : y.length = mw := h y (List.mem_cons_self _ _)
    simp only [List.foldl_cons, hy, min_self]
    exact ih (fun r hr => h r (List.mem_cons.2 (Or.inr hr)))

lemma minLen_rect {m : List (List α)} {mw : ℕ} (hne : m ≠ []) (hrect : ∀ r ∈ m, r.length = mw) :
    minLen m = mw := by
  cases m with
  | nil => exact absurd rfl hne
  | cons y ys =>
    have hy : y.length = mw := hrect y (List.mem_cons_self _ _)
    have hstep : minLen (y :: ys) = ys.foldl (fun n row => min n row.length) y.length := rfl
    rw [hstep, hy]
    exact foldl_min_const ys mw (fun r hr => hrect r (List.mem_cons.2 (Or.inr hr)))

lemma length_d3transpose (m : List (List α)) : (d3transpose m).length = minLen m := by
  simp [d3transpose]

lemma filterMap_length_of_isSome {m : List α} {f : α → Option β}
    (h : ∀ a ∈ m, (f a).isSome) : (m.filterMap f).length = m.length := by
  induction m with
  | nil => rfl
  | cons a as ih =>
    have ha := h a (List.mem_cons_self _ _)
    obtain ⟨b, hb⟩ := Option.isSome_iff_exists.1 ha
    rw [List.filterMap_cons, hb]
    simp only [List.length_cons]
    rw [ih (fun a ha => h a (List.mem_cons.2 (Or.inr ha)))]

lemma mem_d3transpose {m : List (List α)} {g : List α} (hg : g ∈ d3transpose m) :
    ∃ j, j < minLen m ∧ g = m.filterMap (fun r => r[j]?) := by
  simp only [d3transpose, List.mem_map, List.mem_range] at hg
  obtain ⟨j, hj, hg⟩ := hg
  exact ⟨j, hj, hg.symm⟩

lemma d3transpose_col_length {m : List (List α)} {g : List α} (hg : g ∈ d3transpose m) :
    g.length = m.length := by
  obtain ⟨j, hj, rfl⟩ := mem_d3transpose hg
  refine filterMap_length_of_isSome (fun r hr => ?_)
  have : j < r.length := lt_of_lt_of_le hj (minLen_le_of_mem hr)
  simp [List.getElem?_eq_getElem this]

lemma d3transpose_mem_ne_nil {m : List (List α)} {g : List α} (hne : m ≠ [])
    (hg : g ∈ d3transpose m) : g ≠ [] := by
  have h1 := d3transpose_col_length hg
  intro h2
  rw [h2] at h1
  exact hne (List.length_eq_zero.1 h1.symm)

lemma getElem?_d3transpose {m : List (List α)} {j : ℕ} (hj : j < minLen m) :
    (d3transpose m)[j]? = some (m.filterMap (fun r => r[j]?)) := by
  simp [d3transpose, List.getElem?_range hj]

/-- Claim C3: calling `rowMinimum`/`colMinimum` with a value always fails
with `NotSettable`; the no-argument calls freshly recompute, from the
current children, each per-row (per-column) minimum as the maximum of the
children's own minimums over that row (column of the transposed grid) —
the placeholder contributing its zero minimum — and return the sum of
these plus the padding times (number of groups minus one). -/
theorem c3_minimum_aggregation (t : Table) (v : ℚ)
    (hr0 : t.rows ≠ []) (hne : ∀ r ∈ t.rows, r ≠ []) :
    rowMinimum t (some v) = .error .notSettable ∧
    colMinimum t (some v) = .error .notSettable ∧
    placeholderComp.rowMin = 0 ∧ placeholderComp.colMin = 0 ∧
    (∃ rmins : List ℚ,
      rmins.length = t.rows.length ∧
      (∀ i (hi : i < t.rows.length), ∃ hi2 : i < rmins.length,
        isMaxOf (rmins.get ⟨i, hi2⟩) ((t.rows.get ⟨i, hi⟩).map Comp.rowMin)) ∧
      rowMinimum t none = .ok ({ t with rowMinimums := rmins.map some },
        rmins.sum + t.rowPadding * ((t.rows.length : ℚ) - 1))) ∧
    (∃ cmins : List ℚ,
      cmins.length = (d3transpose t.rows).length ∧
      (∀ j (hj : j < (d3transpose t.rows).length), ∃ hj2 : j < cmins.length,
        isMaxOf (cmins.get ⟨j, hj2⟩) (((d3transpose t.rows).get ⟨j, hj⟩).map Comp.colMin)) ∧
      colMinimum t none = .ok ({ t with colMinimums := cmins.map some },
        cmins.sum + t.colPadding * (((d3transpose t.rows).length : ℚ) - 1))) := by
  refine ⟨rfl, rfl, rfl, rfl, ?_, ?_⟩
  · refine ⟨t.rows.map (fun r => maxD (r.map Comp.rowMin)), by simp, ?_, ?_⟩
    · intro i hi
      have hi2 : i < (t.rows.map (fun r => maxD (r.map Comp.rowMin))).length := by simpa using hi
      refine ⟨hi2, ?_⟩
      have hgr : t.rows.get ⟨i, hi⟩ ∈ t.rows := List.get_mem _ _ _
      have hne2 : (t.rows.get ⟨i, hi⟩).map Comp.rowMin ≠ [] := by
        simpa using hne _ hgr
      have hmax := maxD_isMax _ hne2
      have hget : (t.rows.map (fun r => maxD (r.map Comp.rowMin))).get ⟨i, hi2⟩ =
          maxD ((t.rows.get ⟨i, hi⟩).map Comp.rowMin) := by
        simp
      rw [hget]
      exact hmax
    · have hmins := rowMinsOf_eq_map t.rows hne
      unfold rowMinimum rowMinValue
      rw [hmins, d3sumOpt_map_some]
  · have hcne : ∀ g ∈ d3transpose t.rows, g ≠ [] := fun g hg => d3transpose_mem_ne_nil hr0 hg
    refine ⟨(d3transpose t.rows).map (fun g => maxD (g.map Comp.colMin)), by simp, ?_, ?_⟩
    · intro j hj
      have hj2 : j < ((d3transpose t.rows).map (fun g => maxD (g.map Comp.colMin))).length := by
        simpa using hj
      refine ⟨hj2, ?_⟩
      have hgr : (d3transpose t.rows).get ⟨j, hj⟩ ∈ d3transpose t.rows := List.get_mem _ _ _
      have hne2 : ((d3transpose t.rows).get ⟨j, hj⟩).map Comp.colMin ≠ [] := by
        simpa using hcne _ hgr
      have hmax := maxD_isMax _ hne2
      have hget : ((d3transpose t.rows).map (fun g => maxD (g.map Comp.colMin))).get ⟨j, hj2⟩ =
          maxD (((d3transpose t.rows).get ⟨j, hj⟩).map Comp.colMin) := by
        simp
      rw [hget]
      exact hmax
    · have hmins : colMinsOf t.rows =
          ((d3transpose t.rows).map (fun g => maxD (g.map Comp.colMin))).map some := by
        unfold colMinsOf
        rw [List.map_map]
        refine List.map_congr_left (fun g hg => ?_)
        have hne2 : g.map Comp.colMin ≠ [] := by simpa using hcne g hg
        rw [d3max_eq_maxD _ hne2]; rfl
      unfold colMinimum colMinValue
      rw [hmins, d3sumOpt_map_some]

/-- Claim C3, witness: the aggregation theorem applied to a concrete
2-by-2 table. -/
theorem c3_witness :
    (mkTable [[some ⟨10, 10, false, false, false⟩, some ⟨10, 20, false, false, false⟩],
              [some ⟨30, 10, false, false, false⟩, some ⟨30, 20, false, false, false⟩]]).rows ≠ [] ∧
    rowMinimum (mkTable [[some ⟨10, 10, false, false, false⟩, some ⟨10, 20, false, false, false⟩],
              [some ⟨30, 10, false, false, false⟩, some ⟨30, 20, false, false, false⟩]]) (some 7) =
      .error .notSettable := by
  refine ⟨by simp [mkTable], ?_⟩
  exact (c3_minimum_aggregation _ 7 (by simp [mkTable]) (by simp [mkTable])).1

end Plottable

namespace Plottable

lemma foldl_and_eq_all (l : List Bool) (b : Bool) : l.foldl and b = (b && l.all id) := by
  induction l generalizing b with
  | nil => simp
  | cons x xs ih =>
    simp only [List.foldl_cons, List.all_cons, id]
    rw [ih (and b x)]
    simp [Bool.and_assoc]

lemma resolveWeight_spec {groups : List (List Comp)} {fix : Comp → Bool} {i : ℕ}
    {g : List Comp} (hg : groups[i]? = some g) (hne : g ≠ []) (w : Option ℚ) :
    resolveWeight groups fix i w = some (w.getD (if g.all fix then 0 else 1)) := by
  cases w with
  | some q => rfl
  | none =>
    simp only [resolveWeight, hg, Option.getD_none]
    cases g with
    | nil => exact absurd rfl hne
    | cons c cs =>
      simp only [List.map_cons]
      rw [foldl_and_eq_all]
      simp [List.all_map, Function.comp]

lemma calcWeightsFrom_spec (groups : List (List Comp)) (fix : Comp → Bool) :
    ∀ (ws : List (Option ℚ)) (i : ℕ),
    (∀ k, k < ws.length → (resolveWeight groups fix (i + k) (ws.getD k none)).isSome) →
    ∃ qs, calcWeightsFrom groups fix i ws = some qs ∧ qs.length = ws.length ∧
      ∀ k, k < ws.length → qs[k]? = resolveWeight groups fix (i + k) (ws.getD k none) := by
  intro ws
  induction ws with
  | nil =>
    intro i _
    exact ⟨[], rfl, rfl, fun k hk => absurd hk (Nat.not_lt_zero k)⟩
  | cons w ws' ih =>
    intro i h
    have h0 : (resolveWeight groups fix i w).isSome := by
      have := h 0 (Nat.succ_pos _)
      simpa using this
    obtain ⟨q, hq⟩ := Option.isSome_iff_exists.1 h0
    have hsh : ∀ k, k < ws'.length →
        (resolveWeight groups fix (i + 1 + k) (ws'.getD k none)).isSome := by
      intro k hk
      have := h (k + 1) (by simpa using Nat.succ_lt_succ hk)
      have harith : i + (k + 1) = i + 1 + k := by omega
      simpa [harith] using this
    obtain ⟨qs', hqs', hlen, hidx⟩ := ih (i + 1) hsh
    refine ⟨q :: qs', ?_, by simp [hlen], ?_⟩
    · simp only [calcWeightsFrom, hq, hqs']
    · intro k hk
      cases k with
      | zero => simpa using hq.symm
      | succ k' =>
        have hk' : k' < ws'.length := by simpa using Nat.lt_of_succ_lt_succ hk
        have harith : i + (k' + 1) = i + 1 + k' := by omega
        simpa [harith] using hidx k' hk'

lemma calcComponentWeights_spec (sw : List (Option ℚ)) (groups : List (List Comp))
    (fix : Comp → Bool) (hlen : sw.length ≤ groups.length) (hne : ∀ g ∈ groups, g ≠ []) :
    ∃ qs, calcComponentWeights sw groups fix = some qs ∧ qs.length = sw.length ∧
      ∀ i, i < sw.length →
        qs[i]? = some ((sw.getD i none).getD
          (if (groups.getD i []).all fix then 0 else 1)) := by
  have hres : ∀ i, i < sw.length →
      resolveWeight groups fix i (sw.getD i none) =
        some ((sw.getD i none).getD (if (groups.getD i []).all fix then 0 else 1)) := by
    intro i hi
    have hig : i < groups.length := lt_of_lt_of_le hi hlen
    have hg : groups[i]? = some (groups.getD i []) := by
      rw [List.getD_eq_getElem groups [] hig, List.getElem?_eq_getElem hig]
    exact resolveWeight_spec hg (hne _ (by
      rw [List.getD_eq_getElem groups [] hig]; exact List.get_mem _ _ _)) _
  obtain ⟨qs, h1, h2, h3⟩ := calcWeightsFrom_spec groups fix sw 0 (fun k hk => by
    rw [Nat.zero_add, hres k hk]; rfl)
  refine ⟨qs, h1, h2, fun i hi => ?_⟩
  have := h3 i hi
  rw [Nat.zero_add] at this
  rw [this, hres i hi]

/-- Claim C2: the weight used during layout for each row is the
explicitly set row weight verbatim when one was set (even zero), and is
otherwise inferred as `0` when every component of the row reports fixed
height and as `1` otherwise; symmetrically for each column of the
transposed grid using the fixed-width reports. -/
theorem c2_weight_resolution (t : Table) (m : ℕ) (hm : 0 < m)
    (hr0 : t.rows ≠ []) (hrect : ∀ r ∈ t.rows, r.length = m)
    (hrw : t.rowWeights.length = t.rows.length) (hcw : t.colWeights.length = m) :
    ∃ rws cws,
      rowWeightsUsed t = some rws ∧ colWeightsUsed t = some cws ∧
      rws.length = t.rowWeights.length ∧ cws.length = t.colWeights.length ∧
      (∀ i, i < t.rowWeights.length →
        rws[i]? = some ((t.rowWeights.getD i none).getD
          (if (t.rows.getD i []).all Comp.fixedHeight then 0 else 1))) ∧
      (∀ j, j < t.colWeights.length →
        cws[j]? = some ((t.colWeights.getD j none).getD
          (if ((d3transpose t.rows).getD j []).all Comp.fixedWidth then 0 else 1))) := by
  have hrne : ∀ r ∈ t.rows, r ≠ [] := by
    intro r hr h
    have hlen := hrect r hr
    rw [h] at hlen
    simp only [List.length_nil] at hlen
    omega
  have hrowlen : t.rowWeights.length ≤ t.rows.length := le_of_eq hrw
  obtain ⟨rws, hr1, hr2, hr3⟩ :=
    calcComponentWeights_spec t.rowWeights t.rows Comp.fixedHeight hrowlen hrne
  have hcols : (d3transpose t.rows).length = m := by
    rw [length_d3transpose]
    exact minLen_rect hr0 hrect
  have hcollen : t.colWeights.length ≤ (d3transpose t.rows).length := by
    rw [hcols]; exact le_of_eq hcw
  have hcne : ∀ g ∈ d3transpose t.rows, g ≠ [] := fun g hg => d3transpose_mem_ne_nil hr0 hg
  obtain ⟨cws, hc1, hc2, hc3⟩ :=
    calcComponentWeights_spec t.colWeights (d3transpose t.rows) Comp.fixedWidth hcollen hcne
  exact ⟨rws, cws, hr1, hc1, hr2, hc2, hr3, hc3⟩

/-- Concrete table used by several witnesses: a 2-by-1 grid with an
explicit zero weight on row 0 and an unset weight on row 1, whose single
row-1 component is fixed in both axes. -/
def wTable : Table :=
  { mkTable [[some ⟨1, 2, false, false, false⟩], [some ⟨3, 4, true, true, false⟩]] with
    rowWeights := [some 0, none] }

/-- Claim C2, witness: the resolution theorem applied to `wTable`. -/
theorem c2_witness :
    ∃ rws cws,
      rowWeightsUsed wTable = some rws ∧ colWeightsUsed wTable = some cws ∧
      rws.length = wTable.rowWeights.length ∧ cws.length = wTable.colWeights.length ∧
      (∀ i, i < wTable.rowWeights.length →
        rws[i]? = some ((wTable.rowWeights.getD i none).getD
          (if (wTable.rows.getD i []).all Comp.fixedHeight then 0 else 1))) ∧
      (∀ j, j < wTable.colWeights.length →
        cws[j]? = some ((wTable.colWeights.getD j none).getD
          (if ((d3transpose wTable.rows).getD j []).all Comp.fixedWidth then 0 else 1))) :=
  c2_weight_resolution wTable 1 (by decide) (by decide)
    (by decide) (by decide) (by decide)

end Plottable

namespace Plottable

lemma reduceAnd_isSome_iff (l : List Bool) : (reduceAnd l).isSome ↔ l ≠ [] := by
  cases l <;> simp [reduceAnd]

lemma mapReduceAnd_isSome_iff (fix : Comp → Bool) :
    ∀ gs : List (List Comp), (mapReduceAnd fix gs).isSome ↔ ∀ g ∈ gs, g ≠ [] := by
  intro gs
  induction gs with
  | nil => simp [mapReduceAnd]
  | cons g gs' ih =>
    constructor
    · intro h
      intro g' hg'
      rcases List.mem_cons.1 hg' with h1 | h2
      · subst h1
        intro hemp
        subst hemp
        simp only [mapReduceAnd, List.map_nil, reduceAnd] at h
        exact absurd h (by simp)
      · cases h1 : reduceAnd (g.map fix) with
        | none =>
          simp only [mapReduceAnd, h1] at h
          exact absurd h (by simp)
        | some b =>
          cases h2' : mapReduceAnd fix gs' with
          | none =>
            simp only [mapReduceAnd, h1, h2'] at h
            exact absurd h (by simp)
          | some bs => exact (ih.1 (by simp [h2'])) g' h2
    · intro h
      have hg : g ≠ [] := h g (List.mem_cons_self _ _)
      have hg2 : g.map fix ≠ [] := by simpa using hg
      obtain ⟨b, hb⟩ := Option.isSome_iff_exists.1 ((reduceAnd_isSome_iff _).2 hg2)
      have hrest : (mapReduceAnd fix gs').isSome :=
        ih.2 (fun g' hg' => h g' (List.mem_cons.2 (Or.inr hg')))
      obtain ⟨bs, hbs⟩ := Option.isSome_iff_exists.1 hrest
      simp [mapReduceAnd, hb, hbs]

lemma mapReduceAnd_length (fix : Comp → Bool) :
    ∀ (gs : List (List Comp)) (bs : List Bool), mapReduceAnd fix gs = some bs →
      bs.length = gs.length := by
  intro gs
  induction gs with
  | nil => intro bs h; simp only [mapReduceAnd] at h; simp [← Option.some.inj h]
  | cons g gs' ih =>
    intro bs h
    cases h1 : reduceAnd (g.map fix) with
    | none =>
      simp only [mapReduceAnd, h1] at h
      exact Option.noConfusion h
    | some b =>
      cases h2 : mapReduceAnd fix gs' with
      | none =>
        simp only [mapReduceAnd, h1, h2] at h
        exact Option.noConfusion h
      | some bs' =>
        simp only [mapReduceAnd, h1, h2] at h
        rw [← Option.some.inj h]
        simp [ih bs' h2]

lemma fixedSpace_isSome_iff (groups : List (List Comp)) (fix : Comp → Bool) :
    (fixedSpace groups fix).isSome ↔ (groups ≠ [] ∧ ∀ g ∈ groups, g ≠ []) := by
  unfold fixedSpace
  cases h : mapReduceAnd fix groups with
  | none =>
    have : ¬ (mapReduceAnd fix groups).isSome := by simp [h]
    rw [mapReduceAnd_isSome_iff] at this
    simp only [Option.isSome_none, Bool.false_eq_true, false_iff]
    intro hc
    exact this hc.2
  | some bs =>
    have hall : ∀ g ∈ groups, g ≠ [] := (mapReduceAnd_isSome_iff fix groups).1 (by simp [h])
    rw [reduceAnd_isSome_iff]
    constructor
    · intro hbs
      refine ⟨?_, hall⟩
      intro hg
      subst hg
      simp only [mapReduceAnd] at h
      rw [← Option.some.inj h] at hbs
      exact hbs rfl
    · intro ⟨hg, _⟩
      intro hbs
      subst hbs
      have := mapReduceAnd_length fix groups [] h
      exact hg (List.length_eq_zero.1 this.symm)

/-- Claim C9: the fixed-axis queries are total only on non-degenerate
grids — on a table with zero rows (and, for `isFixedWidth`, on a table
whose transposed grid has zero columns) the seedless AND-reduction runs
on an empty array and throws (`none`) instead of returning a boolean;
in general `fixedSpace` returns a boolean exactly when the group list and
every reduced group are non-empty. -/
theorem c9_fixed_space_totality (t : Table) :
    (t.rows = [] → isFixedHeight t = none ∧ isFixedWidth t = none) ∧
    (d3transpose t.rows = [] → isFixedWidth t = none) ∧
    (∀ (groups : List (List Comp)) (fix : Comp → Bool),
      (∃ b, fixedSpace groups fix = some b) ↔ (groups ≠ [] ∧ ∀ g ∈ groups, g ≠ [])) := by
  refine ⟨?_, ?_, ?_⟩
  · intro h
    constructor
    · rw [isFixedHeight, h]; rfl
    · rw [isFixedWidth, h]; rfl
  · intro h
    rw [isFixedWidth, h]; rfl
  · intro groups fix
    rw [← fixedSpace_isSome_iff]
    exact ⟨fun ⟨b, hb⟩ => by simp [hb], fun h => Option.isSome_iff_exists.1 h⟩

/-- Claim C9, witness: applied to the empty table, both queries throw. -/
theorem c9_witness :
    isFixedHeight (mkTable []) = none ∧ isFixedWidth (mkTable []) = none :=
  (c9_fixed_space_totality (mkTable [])).1 rfl

lemma padRow_length (r : List Comp) (nC : ℕ) : (padRow r nC).length = max r.length nC := by
  simp only [padRow, List.length_append, List.length_replicate]
  omega

lemma padRow_getElem?_of_lt {r : List Comp} {nC j : ℕ} (hj : j < r.length) :
    (padRow r nC)[j]? = r[j]? := by
  simp [padRow, List.getElem?_append, hj]

lemma padRow_getElem?_pad {r : List Comp} {nC j : ℕ} (h1 : r.length ≤ j) (h2 : j < nC) :
    (padRow r nC)[j]? = some placeholderComp := by
  simp only [padRow, List.getElem?_append, List.getElem?_replicate]
  have hge : ¬ j < r.length := not_lt.2 h1
  simp only [if_neg hge]
  have hlt : j - r.length < nC - r.length := by omega
  simp [hlt]

lemma padTableToSize_rows_length (t : Table) (nR nC : ℕ) :
    (padTableToSize t nR nC).rows.length = max nR t.rows.length := by
  simp only [padTableToSize, List.length_append, List.length_map, List.length_range,
    List.length_drop]
  omega

lemma padTableToSize_row_of_lt {t : Table} {nR nC i : ℕ} (hi : i < nR) :
    (padTableToSize t nR nC).rows[i]? = some (padRow ((t.rows[i]?).getD []) nC) := by
  simp only [padTableToSize]
  have hlen : i < ((List.range nR).map (fun i => padRow ((t.rows[i]?).getD []) nC)).length := by
    simpa using hi
  rw [List.getElem?_append, if_pos hlen, List.getElem?_map, List.getElem?_range hi]
  rfl

lemma slot_padTableToSize {t : Table} {nR nC row col : ℕ} (hr : row < nR) (hc : col < nC) :
    slot (padTableToSize t nR nC) row col = some ((slot t row col).getD placeholderComp) := by
  unfold slot
  rw [padTableToSize_row_of_lt hr]
  rw [Option.some_bind]
  cases hrow : t.rows[row]? with
  | none =>
    simp only [hrow, Option.getD_none, Option.none_bind]
    exact padRow_getElem?_pad (by simp) hc
  | some r =>
    simp only [hrow, Option.getD_some, Option.some_bind]
    by_cases hcl : col < r.length
    · rw [padRow_getElem?_of_lt hcl, List.getElem?_eq_getElem hcl]
      rfl
    · rw [padRow_getElem?_pad (not_lt.1 hcl) hc, List.getElem?_eq_none (not_lt.1 hcl)]
      rfl

lemma slot_addPadded (t : Table) (row col : ℕ) :
    slot (addPadded t row col) row col = some ((slot t row col).getD placeholderComp) := by
  unfold addPadded
  exact slot_padTableToSize (by omega) (by omega)

lemma slot_some_cur {t : Table} {i j : ℕ} {x : Comp} (h : slot t i j = some x) :
    (((t.rows[i]?).getD [])[j]?).getD placeholderComp = x := by
  unfold slot at h
  cases hr : t.rows[i]? with
  | none =>
    rw [hr, Option.none_bind] at h
    exact Option.noConfusion h
  | some r =>
    rw [hr, Option.some_bind] at h
    simp [h]

lemma addComponent_unattached (t : Table) (row col : ℕ) (c : Comp)
    (hatt : t.attached = false) :
    addComponent t row col c =
      (if (((((addPadded t row col).rows[row]?).getD [])[col]?).getD
            placeholderComp).placeholder = false
       then (addPadded t row col, some .cellOccupied)
       else ({ addPadded t row col with
               rows := (addPadded t row col).rows.set row
                 ((((addPadded t row col).rows[row]?).getD []).set col c) }, none)) := by
  simp only [addComponent, hatt, Bool.false_eq_true, if_false]

lemma addPadded_cur (t : Table) (row col : ℕ) :
    (((((addPadded t row col).rows[row]?).getD [])[col]?).getD placeholderComp) =
      (slot t row col).getD placeholderComp :=
  slot_some_cur (slot_addPadded t row col)

/-- Claim C8: `addComponent` fails with `InvalidMutation` whenever the
table is attached, before any other check and leaving the table
untouched; when unattached it fails with `CellOccupied` exactly when the
target slot already holds a non-placeholder component, leaving that slot
as it was, and otherwise succeeds and writes the component into slot
`(row, col)`. -/
theorem c8_place_errors (t : Table) (row col : ℕ) (c : Comp) :
    (t.attached = true → addComponent t row col c = (t, some .invalidMutation)) ∧
    (t.attached = false →
      (((addComponent t row col c).2 = some .cellOccupied) ↔
        (∃ cc, slot t row col = some cc ∧ cc.placeholder = false)) ∧
      ((addComponent t row col c).2 = some .cellOccupied →
        slot (addComponent t row col c).1 row col = slot t row col) ∧
      ((addComponent t row col c).2 ≠ some .cellOccupied →
        (addComponent t row col c).2 = none ∧
        slot (addComponent t row col c).1 row col = some c)) := by
  constructor
  · intro hatt
    simp [addComponent, hatt]
  · intro hatt
    rw [addComponent_unattached t row col c hatt, addPadded_cur t row col]
    by_cases hocc : ∃ cc, slot t row col = some cc ∧ cc.placeholder = false
    · obtain ⟨cc, hcc1, hcc2⟩ := hocc
      have hcond : ((slot t row col).getD placeholderComp).placeholder = false := by
        rw [hcc1]
        exact hcc2
      rw [if_pos hcond]
      refine ⟨⟨fun _ => ⟨cc, hcc1, hcc2⟩, fun _ => rfl⟩, fun _ => ?_,
        fun hne => absurd rfl hne⟩
      show slot (addPadded t row col) row col = slot t row col
      rw [slot_addPadded t row col, hcc1]
      rfl
    · have hp : ((slot t row col).getD placeholderComp).placeholder = true := by
        cases hs : slot t row col with
        | none => rfl
        | some cc =>
          by_cases hb : cc.placeholder = true
          · simpa using hb
          · exact absurd ⟨cc, hs, by simpa using hb⟩ hocc
      have hcond : ¬ ((slot t row col).getD placeholderComp).placeholder = false := by
        simp [hp]
      rw [if_neg hcond]
      refine ⟨⟨fun h => absurd h (by simp), fun h => absurd h hocc⟩,
        fun h => absurd h (by simp), fun _ => ⟨rfl, ?_⟩⟩
      obtain ⟨rr, hrr, hcc⟩ : ∃ rr, (addPadded t row col).rows[row]? = some rr ∧
          rr[col]? = some ((slot t row col).getD placeholderComp) := by
        have hsl := slot_addPadded t row col
        unfold slot at hsl
        cases hrow : (addPadded t row col).rows[row]? with
        | none =>
          rw [hrow, Option.none_bind] at hsl
          exact Option.noConfusion hsl
        | some rr =>
          rw [hrow, Option.some_bind] at hsl
          exact ⟨rr, rfl, hsl⟩
      have hrowlt : row < (addPadded t row col).rows.length := by
        unfold addPadded
        rw [padTableToSize_rows_length]
        simp only [Table.rows]
        omega
      have hcollt : col < (((addPadded t row col).rows[row]?).getD []).length := by
        have h1 : (addPadded t row col).rows[row]? =
            some (padRow ((t.rows[row]?).getD []) (max col t.nCols + 1)) := by
          unfold addPadded
          exact padTableToSize_row_of_lt (by omega)
        rw [h1, Option.getD_some, padRow_length]
        omega
      show slot { addPadded t row col with
          rows := (addPadded t row col).rows.set row
            ((((addPadded t row col).rows[row]?).getD []).set col c) } row col = some c
      show (((addPadded t row col).rows.set row
          ((((addPadded t row col).rows[row]?).getD []).set col c))[row]?).bind
          (fun r => r[col]?) = some c
      rw [List.getElem?_set_eq_of_lt _ hrowlt, Option.some_bind,
        List.getElem?_set_eq_of_lt _ hcollt]

/-- Claim C8, witness: on the unattached table `wTable`, placing at the
occupied cell `(0, 0)` fails with `CellOccupied`, and an attached copy of
it always fails with `InvalidMutation`. -/
theorem c8_witness :
    ((addComponent wTable 0 0 placeholderComp).2 = some .cellOccupied ↔
      (∃ cc, slot wTable 0 0 = some cc ∧ cc.placeholder = false)) ∧
    addComponent { wTable with attached := true } 0 0 placeholderComp =
      ({ wTable with attached := true }, some .invalidMutation) :=
  ⟨((c8_place_errors wTable 0 0 placeholderComp).2 rfl).1,
   (c8_place_errors { wTable with attached := true } 0 0 placeholderComp).1 rfl⟩

end Plottable

namespace Plottable

lemma padTableToSize_rows_length_eq {t : Table} {nR nC : ℕ} (h1 : t.rows.length ≤ nR) :
    (padTableToSize t nR nC).rows.length = nR := by
  rw [padTableToSize_rows_length]
  omega

lemma padTableToSize_rows_rect {t : Table} {nR nC : ℕ} (h1 : t.rows.length ≤ nR)
    (h2 : ∀ r ∈ t.rows, r.length ≤ nC) :
    ∀ r ∈ (padTableToSize t nR nC).rows, r.length = nC := by
  intro r hr
  simp only [padTableToSize] at hr
  rw [List.drop_eq_nil_of_le h1, List.append_nil] at hr
  obtain ⟨i, hi, hpad⟩ := List.mem_map.1 hr
  rw [← hpad, padRow_length]
  have hb : ((t.rows[i]?).getD []).length ≤ nC := by
    cases hrw : t.rows[i]? with
    | none => simp
    | some rr => simpa using h2 rr (List.getElem?_mem hrw)
  omega

lemma padTableToSize_rowWeights_new {t : Table} {nR nC i : ℕ}
    (h1 : t.rows.length ≤ i) (h2 : i < nR) :
    (padTableToSize t nR nC).rowWeights[i]? = some none := by
  simp only [padTableToSize]
  rw [List.getElem?_append, if_pos (by simpa using h2), List.getElem?_map,
    List.getElem?_range h2]
  simp [not_lt.2 h1]

lemma padTableToSize_colWeights_new {t : Table} {nR nC j : ℕ}
    (h1 : t.colWeights.length ≤ j) (h2 : j < nC) :
    (padTableToSize t nR nC).colWeights[j]? = some none := by
  simp only [padTableToSize]
  rw [List.getElem?_append, if_pos (by simpa using h2), List.getElem?_map,
    List.getElem?_range h2]
  simp [List.getElem?_eq_none h1]

lemma addComponent_fst_cases (t : Table) (row col : ℕ) (c : Comp)
    (hatt : t.attached = false) :
    (addComponent t row col c).1.rows = (addPadded t row col).rows ∨
    (addComponent t row col c).1.rows =
      (addPadded t row col).rows.set row
        ((((addPadded t row col).rows[row]?).getD []).set col c) := by
  rw [addComponent_unattached t row col c hatt]
  by_cases h : (((((addPadded t row col).rows[row]?).getD [])[col]?).getD
      placeholderComp).placeholder = false
  · rw [if_pos h]
    exact Or.inl rfl
  · rw [if_neg h]
    exact Or.inr rfl

lemma addComponent_fst_weights (t : Table) (row col : ℕ) (c : Comp)
    (hatt : t.attached = false) :
    (addComponent t row col c).1.rowWeights = (addPadded t row col).rowWeights ∧
    (addComponent t row col c).1.colWeights = (addPadded t row col).colWeights := by
  rw [addComponent_unattached t row col c hatt]
  by_cases h : (((((addPadded t row col).rows[row]?).getD [])[col]?).getD
      placeholderComp).placeholder = false
  · rw [if_pos h]
    exact ⟨rfl, rfl⟩
  · rw [if_neg h]
    exact ⟨rfl, rfl⟩

lemma addPadded_row_some (t : Table) (row col : ℕ) :
    (addPadded t row col).rows[row]? =
      some (padRow ((t.rows[row]?).getD []) (max col t.nCols + 1)) := by
  unfold addPadded
  exact padTableToSize_row_of_lt (by omega)

end Plottable

namespace Plottable

lemma addComponent_rows_length {t : Table} (row col : ℕ) (c : Comp)
    (hwf1 : t.rows.length ≤ t.nRows + 1) (hatt : t.attached = false) :
    (addComponent t row col c).1.rows.length = max row t.nRows + 1 := by
  have hPlen : (addPadded t row col).rows.length = max row t.nRows + 1 := by
    unfold addPadded
    exact padTableToSize_rows_length_eq (by simpa using Nat.le_trans hwf1 (by omega))
  rcases addComponent_fst_cases t row col c hatt with h | h
  · rw [h, hPlen]
  · rw [h, List.length_set, hPlen]

lemma addComponent_rows_rect {t : Table} (row col : ℕ) (c : Comp)
    (hwf1 : t.rows.length ≤ t.nRows + 1) (hwf2 : ∀ r ∈ t.rows, r.length ≤ t.nCols + 1)
    (hatt : t.attached = false) :
    ∀ r ∈ (addComponent t row col c).1.rows, r.length = max col t.nCols + 1 := by
  have hr1 : t.rows.length ≤ max row t.nRows + 1 := by omega
  have hc1 : ∀ r ∈ t.rows, r.length ≤ max col t.nCols + 1 := by
    intro r hr
    have := hwf2 r hr
    omega
  have hPrect : ∀ r ∈ (addPadded t row col).rows, r.length = max col t.nCols + 1 := by
    unfold addPadded
    exact padTableToSize_rows_rect hr1 hc1
  rcases addComponent_fst_cases t row col c hatt with h | h
  · rw [h]
    exact hPrect
  · rw [h]
    intro r hr
    rcases List.mem_or_eq_of_mem_set hr with h1 | h2
    · exact hPrect r h1
    · rw [h2, List.length_set, addPadded_row_some, Option.getD_some, padRow_length]
      have hbase : ((t.rows[row]?).getD []).length ≤ max col t.nCols + 1 := by
        cases hrw : t.rows[row]? with
        | none => simp
        | some rr => simpa using hc1 rr (List.getElem?_mem hrw)
      omega

/-- Claim C6 (amended: a newly created slot holds a placeholder except
for the target `(row, col)` itself, which receives the added component
when the call succeeds): after any `addComponent` call on an unattached
table — including one that then fails with `CellOccupied` — the grid is
rectangular with exactly `max(row, nRows) + 1` rows of
`max(col, nCols) + 1` slots each, every newly created slot other than the
target holds a placeholder, newly created rows and columns get an unset
weight entry, and the dimensions cover `(row, col)` and never shrink. -/
theorem c6_grid_invariants (t : Table) (row col : ℕ) (c : Comp)
    (hwf : TableWF t) (hatt : t.attached = false) :
    (addComponent t row col c).1.rows.length = max row t.nRows + 1 ∧
    (∀ r ∈ (addComponent t row col c).1.rows, r.length = max col t.nCols + 1) ∧
    row + 1 ≤ (addComponent t row col c).1.rows.length ∧
    t.rows.length ≤ (addComponent t row col c).1.rows.length ∧
    col + 1 ≤ max col t.nCols + 1 ∧
    (∀ r ∈ t.rows, r.length ≤ max col t.nCols + 1) ∧
    (∀ i j, slot t i j = none → i < (addComponent t row col c).1.rows.length →
      j < max col t.nCols + 1 → ¬(i = row ∧ j = col) →
      slot (addComponent t row col c).1 i j = some placeholderComp) ∧
    (∀ i, t.rows.length ≤ i → i < max row t.nRows + 1 →
      (addComponent t row col c).1.rowWeights[i]? = some none) ∧
    (∀ j, t.colWeights.length ≤ j → j < max col t.nCols + 1 →
      (addComponent t row col c).1.colWeights[j]? = some none) := by
  obtain ⟨hwf1, hwf2, _, _⟩ := hwf
  have hr1 : t.rows.length ≤ max row t.nRows + 1 := by omega
  have hc1 : ∀ r ∈ t.rows, r.length ≤ max col t.nCols + 1 := by
    intro r hr
    have := hwf2 r hr
    omega
  have hPlen : (addPadded t row col).rows.length = max row t.nRows + 1 := by
    unfold addPadded
    exact padTableToSize_rows_length_eq hr1
  have hcases := addComponent_fst_cases t row col c hatt
  have hreslen := addComponent_rows_length row col c hwf1 hatt
  have hresrect := addComponent_rows_rect row col c hwf1 hwf2 hatt
  have hweights := addComponent_fst_weights t row col c hatt
  refine ⟨hreslen, hresrect, by omega, by omega, by omega, hc1, ?_, ?_, ?_⟩
  · intro i j hsl hi hj hne
    rw [hreslen] at hi
    have hslP : ((addPadded t row col).rows[i]?).bind (fun r => r[j]?) =
        some placeholderComp := by
      have h0 : slot (addPadded t row col) i j =
          some ((slot t i j).getD placeholderComp) := by
        unfold addPadded
        exact slot_padTableToSize hi hj
      rw [hsl] at h0
      exact h0
    rcases hcases with h | h
    · unfold slot
      rw [h]
      exact hslP
    · unfold slot
      rw [h]
      by_cases hirow : i = row
      · have hjcol : j ≠ col := fun hj2 => hne ⟨hirow, hj2⟩
        have hrowlt : row < (addPadded t row col).rows.length := by
          rw [hPlen]
          omega
        rw [hirow] at hslP ⊢
        rw [List.getElem?_set_eq_of_lt _ hrowlt, Option.some_bind,
          List.getElem?_set_ne (fun hc => hjcol hc.symm)]
        have hProw := addPadded_row_some t row col
        rw [hProw, Option.some_bind] at hslP
        rw [hProw, Option.getD_some]
        exact hslP
      · rw [List.getElem?_set_ne (fun h2 => hirow h2.symm)]
        exact hslP
  · intro i h1 h2
    rw [hweights.1]
    unfold addPadded
    exact padTableToSize_rowWeights_new h1 (by omega)
  · intro j h1 h2
    rw [hweights.2]
    unfold addPadded
    exact padTableToSize_colWeights_new h1 (by omega)

/-- Claim C6, counterexample: on an empty table, placing a real component
at `(0, 0)` creates the slot `(0, 0)` and leaves the added component —
not a placeholder — in it, so "every newly created slot holds a
placeholder component" fails as stated. -/
theorem c6_new_slot_cex :
    slot (mkTable []) 0 0 = none ∧
    slot (addComponent (mkTable []) 0 0 ⟨0, 0, false, false, false⟩).1 0 0 =
      some ⟨0, 0, false, false, false⟩ ∧
    (⟨0, 0, false, false, false⟩ : Comp).placeholder = false := by
  refine ⟨rfl, ?_, rfl⟩
  decide

/-- Claim C6, witness: the invariants theorem applied to `wTable` and a
place at `(2, 2)`. -/
theorem c6_witness :
    TableWF wTable ∧
    (addComponent wTable 2 2 placeholderComp).1.rows.length = max 2 wTable.nRows + 1 ∧
    (∀ r ∈ (addComponent wTable 2 2 placeholderComp).1.rows,
      r.length = max 2 wTable.nCols + 1) :=
  ⟨by decide,
   (c6_grid_invariants wTable 2 2 placeholderComp (by decide) rfl).1,
   (c6_grid_invariants wTable 2 2 placeholderComp (by decide) rfl).2.1⟩

end Plottable

namespace Plottable

lemma maxLen_map_lengths (input : List (List (Option Comp))) :
    maxLen (input.map (fun r => r.map (fun c => c.getD placeholderComp))) = maxLen input := by
  unfold maxLen
  rw [List.map_map]
  refine congrArg _ (List.map_congr_left fun r _ => ?_)
  simp

/-- Claim C10 (amended: the first call grows the grid one row beyond what
is needed to address `(row, col)` exactly when `row < nRows` — and one
column beyond exactly when `col < nCols` — while for `row ≥ nRows` and
`col ≥ nCols` the grid ends up exactly the addressable size): after any
`addComponent` that passes the attachment check, the grid is padded to
exactly `max(row, nRows) + 1` rows and `max(col, nCols) + 1` columns —
also when the call then fails with `CellOccupied` — and the constructor
sets the counters to the count of initial rows and the maximum initial
row length. -/
theorem c10_padding_counters (t : Table) (row col : ℕ) (c : Comp)
    (hwf : TableWF t) (hatt : t.attached = false) :
    (addComponent t row col c).1.rows.length = max row t.nRows + 1 ∧
    (∀ r ∈ (addComponent t row col c).1.rows, r.length = max col t.nCols + 1) ∧
    (row < t.nRows → (addComponent t row col c).1.rows.length = t.nRows + 1 ∧
      row + 1 < t.nRows + 1) ∧
    (col < t.nCols → (∀ r ∈ (addComponent t row col c).1.rows, r.length = t.nCols + 1) ∧
      col + 1 < t.nCols + 1) ∧
    (∀ input : List (List (Option Comp)),
      (mkTable input).nRows = input.length ∧ (mkTable input).nCols = maxLen input) := by
  obtain ⟨hwf1, hwf2, _, _⟩ := hwf
  refine ⟨addComponent_rows_length row col c hwf1 hatt,
    addComponent_rows_rect row col c hwf1 hwf2 hatt, ?_, ?_, ?_⟩
  · intro h
    refine ⟨?_, by omega⟩
    rw [addComponent_rows_length row col c hwf1 hatt, Nat.max_eq_right (le_of_lt h)]
  · intro h
    refine ⟨?_, by omega⟩
    intro r hr
    have := addComponent_rows_rect row col c hwf1 hwf2 hatt r hr
    rw [Nat.max_eq_right (le_of_lt h)] at this
    exact this
  · intro input
    refine ⟨by simp [mkTable], ?_⟩
    show maxLen (input.map (fun r => r.map (fun c => c.getD placeholderComp))) = maxLen input
    exact maxLen_map_lengths input

/-- Claim C10, counterexample: the first `addComponent` on the non-empty
table built from a single real cell, placing at `(1, 1)`, produces a
2-by-2 grid — exactly the size needed to make `(1, 1)` addressable —
not the 3-by-3 grid that "one extra row and one extra column beyond what
is needed" would give. -/
theorem c10_no_extra_growth_cex :
    (mkTable [[some ⟨0, 0, false, false, false⟩]]).nRows = 1 ∧
    (addComponent (mkTable [[some ⟨0, 0, false, false, false⟩]]) 1 1
      ⟨0, 0, false, false, false⟩).1.rows.length = 2 ∧
    (∀ r ∈ (addComponent (mkTable [[some ⟨0, 0, false, false, false⟩]]) 1 1
      ⟨0, 0, false, false, false⟩).1.rows, r.length = 2) ∧
    (addComponent (mkTable [[some ⟨0, 0, false, false, false⟩]]) 1 1
      ⟨0, 0, false, false, false⟩).1.rows.length ≠ 2 + 1 := by
  refine ⟨rfl, ?_, ?_, ?_⟩ <;> decide

/-- Claim C10, witness: the padding theorem applied to `wTable` at
`(0, 0)`, where the counters exceed the target indices, so the grid grows
one extra row and column. -/
theorem c10_witness :
    TableWF wTable ∧
    (addComponent wTable 0 0 placeholderComp).1.rows.length = max 0 wTable.nRows + 1 ∧
    (0 < wTable.nRows → (addComponent wTable 0 0 placeholderComp).1.rows.length =
      wTable.nRows + 1 ∧ 0 + 1 < wTable.nRows + 1) :=
  ⟨by decide,
   (c10_padding_counters wTable 0 0 placeholderComp (by decide) rfl).1,
   (c10_padding_counters wTable 0 0 placeholderComp (by decide) rfl).2.2.1⟩

end Plottable

namespace Plottable

/-- Claim C7, counterexample: constructing from the jagged input
`[[null], [null, null]]` leaves rows of lengths 1 and 2 — the constructor
does not pad the grid to rectangular, so not every row has the maximum
input row length. -/
theorem c7_jagged_cex :
    (mkTable [[none], [none, none]]).rows.map List.length = [1, 2] ∧
    maxLen ([[none], [none, none]] : List (List (Option Comp))) = 2 ∧
    ¬ ∀ r ∈ (mkTable [[none], [none, none]]).rows,
        r.length = maxLen ([[none], [none, none]] : List (List (Option Comp))) := by
  refine ⟨?_, rfl, ?_⟩ <;> decide

/-- Claim C7 (amended: the constructor replaces every null entry with a
placeholder but performs no padding — each row keeps its input length, so
the grid is rectangular after construction only when the input was):
cell `(i, j)` of the constructed table is the input cell with `null`
replaced by a placeholder, row lengths are preserved verbatim, and a
rectangular input yields a rectangular table. -/
theorem c7_constructor_normalization (input : List (List (Option Comp))) :
    (mkTable input).rows.map List.length = input.map List.length ∧
    (∀ i j, slot (mkTable input) i j =
      (((input[i]?).getD [])[j]?).map (fun oc => oc.getD placeholderComp)) ∧
    (∀ i j, ((input[i]?).getD [])[j]? = some none →
      slot (mkTable input) i j = some placeholderComp) ∧
    (∀ mw, (∀ r ∈ input, r.length = mw) → ∀ r ∈ (mkTable input).rows, r.length = mw) := by
  have hslot : ∀ i j, slot (mkTable input) i j =
      (((input[i]?).getD [])[j]?).map (fun oc => oc.getD placeholderComp) := by
    intro i j
    show ((input.map (fun r => r.map (fun c => c.getD placeholderComp)))[i]?).bind
        (fun r => r[j]?) = _
    rw [List.getElem?_map]
    cases hrow : input[i]? with
    | none => simp
    | some r =>
      simp [List.getElem?_map]
  refine ⟨?_, hslot, ?_, ?_⟩
  · show (input.map (fun r => r.map (fun c => c.getD placeholderComp))).map List.length = _
    rw [List.map_map]
    exact List.map_congr_left (fun r _ => by simp)
  · intro i j h
    rw [hslot i j, h]
    rfl
  · intro mw hrect r hr
    obtain ⟨a, ha, hfa⟩ := List.mem_map.1 hr
    rw [← hfa, List.length_map]
    exact hrect a ha

/-- Claim C7, witness: the amended theorem applied at a concrete
rectangular input, whose result is rectangular. -/
theorem c7_witness :
    (∀ r ∈ ([[none, none], [some placeholderComp, none]] : List (List (Option Comp))),
      r.length = 2) ∧
    ∀ r ∈ (mkTable [[none, none], [some placeholderComp, none]]).rows, r.length = 2 :=
  ⟨by decide,
   (c7_constructor_normalization [[none, none], [some placeholderComp, none]]).2.2.2 2
     (by decide)⟩

end Plottable

namespace Plottable

lemma computeLayout_insufficient {t : Table} {x y aw ah : ℚ}
    (h : aw - colMinValue t < 0 ∨ ah - rowMinValue t < 0) :
    computeLayout t x y aw ah = (layoutT3 t x y aw ah, some .insufficientSpace, []) := by
  simp only [computeLayout]
  rw [if_pos h]

lemma computeLayout_success {t : Table} {x y aw ah : ℚ} {rws cws : List ℚ}
    (h : ¬(aw - colMinValue t < 0 ∨ ah - rowMinValue t < 0))
    (hrw : rowWeightsUsed t = some rws) (hcw : colWeightsUsed t = some cws) :
    computeLayout t x y aw ah = (layoutT3 t x y aw ah, none, successCalls t aw ah rws cws) := by
  simp only [computeLayout]
  rw [if_neg h, hrw, hcw]

lemma computeLayout_fst (t : Table) (x y aw ah : ℚ) :
    (computeLayout t x y aw ah).1 = layoutT3 t x y aw ah := by
  simp only [computeLayout]
  by_cases h : aw - colMinValue t < 0 ∨ ah - rowMinValue t < 0
  · rw [if_pos h]
  · rw [if_neg h]
    rcases rowWeightsUsed t with _ | rws <;> rcases colWeightsUsed t with _ | cws <;> rfl

lemma computeLayout_err_insufficient_iff (t : Table) (x y aw ah : ℚ) :
    (computeLayout t x y aw ah).2.1 = some .insufficientSpace ↔
      aw < colMinValue t ∨ ah < rowMinValue t := by
  have hiff : (aw - colMinValue t < 0 ∨ ah - rowMinValue t < 0) ↔
      (aw < colMinValue t ∨ ah < rowMinValue t) := by
    rw [sub_neg, sub_neg]
  by_cases h : aw - colMinValue t < 0 ∨ ah - rowMinValue t < 0
  · rw [computeLayout_insufficient h]
    simpa using hiff.1 h
  · have hne := (not_iff_not.2 hiff).1 h
    simp only [computeLayout]
    rw [if_neg h]
    rcases rowWeightsUsed t with _ | rws <;> rcases colWeightsUsed t with _ | cws <;>
      simpa using hne

lemma calcProportionalSpace_zero (w : List ℚ) :
    calcProportionalSpace w 0 = List.replicate w.length 0 := by
  unfold calcProportionalSpace
  by_cases hs : w.sum = 0
  · rw [if_pos hs]
    simp [List.map_const']
  · rw [if_neg hs]
    simp [List.map_const']

lemma tableWeights_some (t : Table) (m : ℕ) (hm : 0 < m)
    (hr0 : t.rows ≠ []) (hrect : ∀ r ∈ t.rows, r.length = m)
    (hrw : t.rowWeights.length = t.rows.length) (hcw : t.colWeights.length = m) :
    (∃ rws, rowWeightsUsed t = some rws ∧ rws.length = t.rowWeights.length) ∧
    (∃ cws, colWeightsUsed t = some cws ∧ cws.length = t.colWeights.length) := by
  have hrne : ∀ r ∈ t.rows, r ≠ [] := by
    intro r hr h
    have hlen := hrect r hr
    rw [h] at hlen
    simp only [List.length_nil] at hlen
    omega
  obtain ⟨rws, hr1, hr2, _⟩ :=
    calcComponentWeights_spec t.rowWeights t.rows Comp.fixedHeight (le_of_eq hrw) hrne
  have hcols : (d3transpose t.rows).length = m := by
    rw [length_d3transpose]
    exact minLen_rect hr0 hrect
  have hcollen : t.colWeights.length ≤ (d3transpose t.rows).length := by
    rw [hcols]
    exact le_of_eq hcw
  have hcne : ∀ g ∈ d3transpose t.rows, g ≠ [] := fun g hg => d3transpose_mem_ne_nil hr0 hg
  obtain ⟨cws, hc1, hc2, _⟩ :=
    calcComponentWeights_spec t.colWeights (d3transpose t.rows) Comp.fixedWidth hcollen hcne
  exact ⟨⟨rws, hr1, hr2⟩, ⟨cws, hc1, hc2⟩⟩

/-- Claim C4 (amended: on failure the grid, the weights, the paddings,
the counters and the attachment state are unchanged and no child layout
is invoked, but the failing call has already overwritten the table's own
stored offset and available size and its cached per-row/per-column
minimums): `computeLayout` fails with `InsufficientSpace` exactly when
the available width is below the summed column minimum or the available
height is below the summed row minimum, and with available space exactly
equal to the summed minimums in both axes the call succeeds and every
row and column receives zero proportional surplus. -/
theorem c4_insufficient_space (t : Table) (m : ℕ) (x y aw ah : ℚ)
    (hm : 0 < m) (hr0 : t.rows ≠ []) (hrect : ∀ r ∈ t.rows, r.length = m)
    (hrw : t.rowWeights.length = t.rows.length) (hcw : t.colWeights.length = m) :
    ((computeLayout t x y aw ah).2.1 = some .insufficientSpace ↔
      aw < colMinValue t ∨ ah < rowMinValue t) ∧
    ((computeLayout t x y aw ah).2.1 = some .insufficientSpace →
      (computeLayout t x y aw ah).2.2 = [] ∧
      (computeLayout t x y aw ah).1.rows = t.rows ∧
      (computeLayout t x y aw ah).1.rowWeights = t.rowWeights ∧
      (computeLayout t x y aw ah).1.colWeights = t.colWeights ∧
      (computeLayout t x y aw ah).1.nRows = t.nRows ∧
      (computeLayout t x y aw ah).1.nCols = t.nCols ∧
      (computeLayout t x y aw ah).1.attached = t.attached ∧
      (computeLayout t x y aw ah).1.rowPadding = t.rowPadding ∧
      (computeLayout t x y aw ah).1.colPadding = t.colPadding) ∧
    (aw = colMinValue t → ah = rowMinValue t →
      (computeLayout t x y aw ah).2.1 = none ∧
      ∃ rws cws, rowWeightsUsed t = some rws ∧ colWeightsUsed t = some cws ∧
        calcProportionalSpace rws (ah - rowMinValue t) = List.replicate rws.length 0 ∧
        calcProportionalSpace cws (aw - colMinValue t) = List.replicate cws.length 0) := by
  refine ⟨computeLayout_err_insufficient_iff t x y aw ah, ?_, ?_⟩
  · intro herr
    have h : aw - colMinValue t < 0 ∨ ah - rowMinValue t < 0 := by
      have := (computeLayout_err_insufficient_iff t x y aw ah).1 herr
      rw [sub_neg, sub_neg]
      exact this
    rw [computeLayout_insufficient h]
    exact ⟨rfl, rfl, rfl, rfl, rfl, rfl, rfl, rfl, rfl⟩
  · intro hweq hheq
    obtain ⟨⟨rws, hr1, _⟩, ⟨cws, hc1, _⟩⟩ :=
      tableWeights_some t m hm hr0 hrect hrw hcw
    have hno : ¬(aw - colMinValue t < 0 ∨ ah - rowMinValue t < 0) := by
      rw [hweq, hheq, sub_self]
      simp
    rw [computeLayout_success hno hr1 hc1]
    refine ⟨rfl, rws, cws, hr1, hc1, ?_, ?_⟩
    · rw [hheq, sub_self]
      exact calcProportionalSpace_zero rws
    · rw [hweq, sub_self]
      exact calcProportionalSpace_zero cws

end Plottable

namespace Plottable

/-- Claim C4, counterexample: a failing `computeLayout` call on a table
fresh from the constructor (cached minimums still unset) throws
`InsufficientSpace` and invokes no child layout, but does not leave all
prior state untouched — it has already overwritten the cached per-row
minimums (and stored the requested available height). -/
theorem c4_state_mutation_cex :
    (computeLayout (mkTable [[some ⟨10, 10, false, false, false⟩]]) 0 0 100 5).2.1 =
      some .insufficientSpace ∧
    (computeLayout (mkTable [[some ⟨10, 10, false, false, false⟩]]) 0 0 100 5).2.2 = [] ∧
    (mkTable [[some ⟨10, 10, false, false, false⟩]]).rowMinimums = [] ∧
    (computeLayout (mkTable [[some ⟨10, 10, false, false, false⟩]]) 0 0 100 5).1.rowMinimums =
      [some 10] ∧
    ([] : List (Option ℚ)) ≠ [some 10] ∧
    (computeLayout (mkTable [[some ⟨10, 10, false, false, false⟩]]) 0 0 100 5).1.availableHeight
      = 5 := by
  have h : (100 : ℚ) - colMinValue (mkTable [[some ⟨10, 10, false, false, false⟩]]) < 0 ∨
      (5 : ℚ) - rowMinValue (mkTable [[some ⟨10, 10, false, false, false⟩]]) < 0 := by
    right
    norm_num [rowMinValue, rowMinsOf, d3max, d3sumOpt, mkTable, List.filterMap_cons]
  refine ⟨?_, ?_, rfl, ?_, by simp, ?_⟩
  · rw [computeLayout_insufficient h]
  · rw [computeLayout_insufficient h]
  · rw [computeLayout_insufficient h]
    simp [layoutT3, rowMinsOf, mkTable, d3max]
  · rw [computeLayout_insufficient h]
    rfl

/-- Claim C4, witness: the amended theorem applied at an exact-fit call
on a concrete 1-by-1 table with minimum size 10-by-10. -/
theorem c4_witness :
    (computeLayout (mkTable [[some ⟨10, 10, false, false, false⟩]]) 0 0 10 10).2.1 = none ∧
    ∃ rws cws,
      rowWeightsUsed (mkTable [[some ⟨10, 10, false, false, false⟩]]) = some rws ∧
      colWeightsUsed (mkTable [[some ⟨10, 10, false, false, false⟩]]) = some cws ∧
      calcProportionalSpace rws
        (10 - rowMinValue (mkTable [[some ⟨10, 10, false, false, false⟩]])) =
        List.replicate rws.length 0 ∧
      calcProportionalSpace cws
        (10 - colMinValue (mkTable [[some ⟨10, 10, false, false, false⟩]])) =
        List.replicate cws.length 0 :=
  (c4_insufficient_space (mkTable [[some ⟨10, 10, false, false, false⟩]]) 1 0 0 10 10
    (by decide) (by decide) (by decide) (by decide) (by decide)).2.2
    (by norm_num [colMinValue, colMinsOf, d3transpose, minLen, d3max, d3sumOpt, mkTable,
      maxLen, List.range_succ, List.filterMap_cons, Function.comp])
    (by norm_num [rowMinValue, rowMinsOf, d3max, d3sumOpt, mkTable, List.filterMap_cons])

end Plottable

namespace Plottable

lemma zip_map_some_add (a b : List ℚ) :
    ((a.zip (b.map some)).map (fun p => p.2.map (fun q => p.1 + q))) =
      (List.zipWith (fun x y => x + y) a b).map some := by
  induction a generalizing b with
  | nil => simp
  | cons x xs ih =>
    cases b with
    | nil => simp
    | cons y ys => simp [ih ys]

lemma length_calcProportionalSpace (w : List ℚ) (f : ℚ) :
    (calcProportionalSpace w f).length = w.length := by
  unfold calcProportionalSpace
  by_cases hs : w.sum = 0
  · rw [if_pos hs]
    exact List.length_map _ _
  · rw [if_neg hs]
    exact List.length_map _ _

lemma colMinsOf_eq_map (rows : List (List Comp)) (h : ∀ g ∈ d3transpose rows, g ≠ []) :
    colMinsOf rows = ((d3transpose rows).map (fun g => maxD (g.map Comp.colMin))).map some := by
  unfold colMinsOf
  rw [List.map_map]
  refine List.map_congr_left (fun g hg => ?_)
  have hne : g.map Comp.colMin ≠ [] := by simpa using h g hg
  rw [d3max_eq_maxD _ hne]
  rfl

lemma layoutRow_get (rIdx : ℕ) (yv hv : Option ℚ) (cw : List ℚ) (cp : ℚ) :
    ∀ (row : List Comp) (c0 : ℕ) (x0 : ℚ), c0 + row.length ≤ cw.length →
    (layoutRow rIdx yv hv (cw.map some) cp c0 (some x0) row).length = row.length ∧
    ∀ k, k < row.length →
      (layoutRow rIdx yv hv (cw.map some) cp c0 (some x0) row)[k]? =
        some ⟨rIdx, c0 + k, some (x0 + ((cw.drop c0).take k).sum + k * cp), yv,
              some (cw.getD (c0 + k) 0), hv⟩ := by
  intro row
  induction row with
  | nil =>
    intro c0 x0 _
    exact ⟨rfl, fun k hk => absurd hk (Nat.not_lt_zero k)⟩
  | cons comp rest ih =>
    intro c0 x0 hbound
    have hbound2 : c0 + rest.length + 1 ≤ cw.length := by
      simp only [List.length_cons] at hbound
      omega
    have hc0 : c0 < cw.length := by omega
    have hw : ((cw.map some)[c0]?).getD none = some (cw.getD c0 0) := by
      rw [List.getElem?_map, List.getElem?_eq_getElem hc0, List.getD_eq_getElem cw 0 hc0]
      rfl
    have hstep : layoutRow rIdx yv hv (cw.map some) cp c0 (some x0) (comp :: rest) =
        ⟨rIdx, c0, some x0, yv, some (cw.getD c0 0), hv⟩ ::
        layoutRow rIdx yv hv (cw.map some) cp (c0 + 1)
          (some (x0 + (cw.getD c0 0 + cp))) rest := by
      rw [show layoutRow rIdx yv hv (cw.map some) cp c0 (some x0) (comp :: rest) =
          ⟨rIdx, c0, some x0, yv, ((cw.map some)[c0]?).getD none, hv⟩ ::
          layoutRow rIdx yv hv (cw.map some) cp (c0 + 1)
            (optAdd (some x0) (optAdd (((cw.map some)[c0]?).getD none) (some cp))) rest
        from rfl, hw]
      rfl
    obtain ⟨ihlen, ihidx⟩ := ih (c0 + 1) (x0 + (cw.getD c0 0 + cp)) (by omega)
    rw [hstep]
    refine ⟨by simp only [List.length_cons, ihlen], ?_⟩
    intro k hk
    cases k with
    | zero =>
      simp only [List.getElem?_cons_zero, Nat.add_zero, List.take_zero, List.sum_nil,
        Nat.cast_zero, zero_mul, add_zero]
    | succ k' =>
      have hk' : k' < rest.length := by
        simp only [List.length_cons] at hk
        omega
      simp only [List.getElem?_cons_succ]
      rw [ihidx k' hk']
      have hdrop : cw.drop c0 = cw.getD c0 0 :: cw.drop (c0 + 1) := by
        rw [List.getD_eq_getElem cw 0 hc0]
        exact List.drop_eq_getElem_cons hc0
      have harith : c0 + 1 + k' = c0 + (k' + 1) := by omega
      rw [harith, hdrop, List.take_succ_cons, List.sum_cons]
      have hx : x0 + (cw.getD c0 0 + cp) + ((cw.drop (c0 + 1)).take k').sum + (k' : ℚ) * cp
          = x0 + (cw.getD c0 0 + ((cw.drop (c0 + 1)).take k').sum) +
            (((k' + 1 : ℕ)) : ℚ) * cp := by
        push_cast
        ring
      rw [hx]

lemma layoutRows_get (cw rh : List ℚ) (rp cp : ℚ) (m : ℕ) (hcwlen : m ≤ cw.length) :
    ∀ (rows : List (List Comp)) (r0 : ℕ) (y0 : ℚ),
    (∀ r ∈ rows, r.length = m) → r0 + rows.length ≤ rh.length →
    (layoutRows (cw.map some) (rh.map some) rp cp r0 (some y0) rows).length =
      rows.length * m ∧
    ∀ k c, k < rows.length → c < m →
      (layoutRows (cw.map some) (rh.map some) rp cp r0 (some y0) rows)[k * m + c]? =
        some ⟨r0 + k, c, some ((cw.take c).sum + c * cp),
              some (y0 + ((rh.drop r0).take k).sum + k * rp),
              some (cw.getD c 0), some (rh.getD (r0 + k) 0)⟩ := by
  intro rows
  induction rows with
  | nil =>
    intro r0 y0 _ _
    refine ⟨?_, fun k c hk _ => absurd hk (Nat.not_lt_zero k)⟩
    show ([] : List ChildCall).length = [].length * m
    simp
  | cons row rest ih =>
    intro r0 y0 hrect hbound
    have hbound2 : r0 + rest.length + 1 ≤ rh.length := by
      simp only [List.length_cons] at hbound
      omega
    have hr0lt : r0 < rh.length := by omega
    have hh : ((rh.map some)[r0]?).getD none = some (rh.getD r0 0) := by
      rw [List.getElem?_map, List.getElem?_eq_getElem hr0lt, List.getD_eq_getElem rh 0 hr0lt]
      rfl
    have hrowm : row.length = m := hrect row (List.mem_cons_self _ _)
    have hstep : layoutRows (cw.map some) (rh.map some) rp cp r0 (some y0) (row :: rest) =
        layoutRow r0 (some y0) (some (rh.getD r0 0)) (cw.map some) cp 0 (some 0) row ++
        layoutRows (cw.map some) (rh.map some) rp cp (r0 + 1)
          (some (y0 + (rh.getD r0 0 + rp))) rest := by
      rw [show layoutRows (cw.map some) (rh.map some) rp cp r0 (some y0) (row :: rest) =
          layoutRow r0 (some y0) (((rh.map some)[r0]?).getD none) (cw.map some) cp 0
            (some 0) row ++
          layoutRows (cw.map some) (rh.map some) rp cp (r0 + 1)
            (optAdd (some y0) (optAdd (((rh.map some)[r0]?).getD none) (some rp))) rest
        from rfl, hh]
      rfl
    obtain ⟨hAlen, hAidx⟩ := layoutRow_get r0 (some y0) (some (rh.getD r0 0)) cw cp row 0 0
      (by omega)
    obtain ⟨ihlen, ihidx⟩ := ih (r0 + 1) (y0 + (rh.getD r0 0 + rp))
      (fun r hr => hrect r (List.mem_cons.2 (Or.inr hr))) (by omega)
    rw [hstep]
    constructor
    · rw [List.length_append, hAlen, ihlen, hrowm, List.length_cons]
      ring
    · intro k c hk hc
      cases k with
      | zero =>
        have hcrow : c < row.length := by omega
        have hidxeq : 0 * m + c = c := by omega
        rw [hidxeq, List.getElem?_append, if_pos (by rw [hAlen]; omega)]
        rw [hAidx c hcrow]
        simp only [Nat.zero_add, Nat.add_zero, List.drop_zero, List.take_zero, List.sum_nil,
          Nat.cast_zero, zero_mul, add_zero, zero_add]
      | succ k' =>
        have hsm : (k' + 1) * m + c = m + (k' * m + c) := by ring
        rw [hsm, List.getElem?_append_right (by rw [hAlen, hrowm]; omega)]
        have hidxeq : m + (k' * m + c) -
            (layoutRow r0 (some y0) (some (rh.getD r0 0)) (cw.map some) cp 0
              (some 0) row).length = k' * m + c := by
          rw [hAlen, hrowm]
          omega
        have hk2 : k' < rest.length := by
          simp only [List.length_cons] at hk
          omega
        rw [hidxeq, ihidx k' c hk2 hc]
        have hdrop : rh.drop r0 = rh.getD r0 0 :: rh.drop (r0 + 1) := by
          rw [List.getD_eq_getElem rh 0 hr0lt]
          exact List.drop_eq_getElem_cons hr0lt
        have harith : r0 + 1 + k' = r0 + (k' + 1) := by omega
        rw [harith, hdrop, List.take_succ_cons, List.sum_cons]
        have hy : y0 + (rh.getD r0 0 + rp) + ((rh.drop (r0 + 1)).take k').sum + (k' : ℚ) * rp
            = y0 + (rh.getD r0 0 + ((rh.drop (r0 + 1)).take k').sum) +
              (((k' + 1 : ℕ)) : ℚ) * rp := by
          push_cast
          ring
        rw [hy]

end Plottable

namespace Plottable

/-- Claim C5: in every successful `computeLayout`, the child in cell
`(r, c)` has its layout computed with horizontal offset
`sum of colWidths below c + c * colPadding`, vertical offset
`sum of rowHeights below r + r * rowPadding` (running offsets starting at
0, padding only between cells), and size `(colWidths[c], rowHeights[r])`,
where each final row height is that row's minimum (the maximum of the
children's minimums) plus its allocated proportional space — symmetric
for column widths. -/
theorem c5_offset_assignment (t : Table) (m : ℕ) (x y aw ah : ℚ)
    (hm : 0 < m) (hr0 : t.rows ≠ []) (hrect : ∀ r ∈ t.rows, r.length = m)
    (hrw : t.rowWeights.length = t.rows.length) (hcw : t.colWeights.length = m)
    (hok : (computeLayout t x y aw ah).2.1 = none) :
    ∃ rws cws rmins cmins rh cwid,
      rowWeightsUsed t = some rws ∧ colWeightsUsed t = some cws ∧
      rowMinsOf t.rows = List.map some rmins ∧ colMinsOf t.rows = List.map some cmins ∧
      rh = List.zipWith (fun a b => a + b)
        (calcProportionalSpace rws (ah - rowMinValue t)) rmins ∧
      cwid = List.zipWith (fun a b => a + b)
        (calcProportionalSpace cws (aw - colMinValue t)) cmins ∧
      rh.length = t.rows.length ∧ cwid.length = m ∧
      (computeLayout t x y aw ah).2.2.length = t.rows.length * m ∧
      (∀ r c, r < t.rows.length → c < m →
        (computeLayout t x y aw ah).2.2[r * m + c]? =
          some ⟨r, c, some ((cwid.take c).sum + c * t.colPadding),
                some ((rh.take r).sum + r * t.rowPadding),
                some (cwid.getD c 0), some (rh.getD r 0)⟩) := by
  have hrne : ∀ r ∈ t.rows, r ≠ [] := by
    intro r hr h
    have hlen := hrect r hr
    rw [h] at hlen
    simp only [List.length_nil] at hlen
    omega
  have hcne : ∀ g ∈ d3transpose t.rows, g ≠ [] := fun g hg => d3transpose_mem_ne_nil hr0 hg
  obtain ⟨⟨rws, hr1, hr2⟩, ⟨cws, hc1, hc2⟩⟩ := tableWeights_some t m hm hr0 hrect hrw hcw
  have hno : ¬(aw - colMinValue t < 0 ∨ ah - rowMinValue t < 0) := by
    intro h
    rw [computeLayout_insufficient h] at hok
    exact absurd hok (by simp)
  have hsucc : computeLayout t x y aw ah =
      (layoutT3 t x y aw ah, none, successCalls t aw ah rws cws) :=
    computeLayout_success hno hr1 hc1
  have hcolslen : (d3transpose t.rows).length = m := by
    rw [length_d3transpose]
    exact minLen_rect hr0 hrect
  have hcallseq : successCalls t aw ah rws cws =
      layoutRows
        ((List.zipWith (fun a b => a + b) (calcProportionalSpace cws (aw - colMinValue t))
          ((d3transpose t.rows).map (fun g => maxD (g.map Comp.colMin)))).map some)
        ((List.zipWith (fun a b => a + b) (calcProportionalSpace rws (ah - rowMinValue t))
          (t.rows.map (fun r => maxD (r.map Comp.rowMin)))).map some)
        t.rowPadding t.colPadding 0 (some 0) t.rows := by
    simp only [successCalls]
    rw [rowMinsOf_eq_map t.rows hrne, colMinsOf_eq_map t.rows hcne,
      zip_map_some_add, zip_map_some_add]
  have hcwlen : m ≤ (List.zipWith (fun a b => a + b)
      (calcProportionalSpace cws (aw - colMinValue t))
      ((d3transpose t.rows).map (fun g => maxD (g.map Comp.colMin)))).length := by
    rw [List.length_zipWith, length_calcProportionalSpace, hc2, hcw, List.length_map,
      hcolslen]
    omega
  have hrhlen : 0 + t.rows.length ≤ (List.zipWith (fun a b => a + b)
      (calcProportionalSpace rws (ah - rowMinValue t))
      (t.rows.map (fun r => maxD (r.map Comp.rowMin)))).length := by
    rw [List.length_zipWith, length_calcProportionalSpace, hr2, hrw, List.length_map]
    omega
  obtain ⟨hlen, hidx⟩ := layoutRows_get
    (List.zipWith (fun a b => a + b) (calcProportionalSpace cws (aw - colMinValue t))
      ((d3transpose t.rows).map (fun g => maxD (g.map Comp.colMin))))
    (List.zipWith (fun a b => a + b) (calcProportionalSpace rws (ah - rowMinValue t))
      (t.rows.map (fun r => maxD (r.map Comp.rowMin))))
    t.rowPadding t.colPadding m hcwlen t.rows 0 0 hrect hrhlen
  refine ⟨rws, cws, t.rows.map (fun r => maxD (r.map Comp.rowMin)),
    (d3transpose t.rows).map (fun g => maxD (g.map Comp.colMin)),
    List.zipWith (fun a b => a + b) (calcProportionalSpace rws (ah - rowMinValue t))
      (t.rows.map (fun r => maxD (r.map Comp.rowMin))),
    List.zipWith (fun a b => a + b) (calcProportionalSpace cws (aw - colMinValue t))
      ((d3transpose t.rows).map (fun g => maxD (g.map Comp.colMin))),
    hr1, hc1, rowMinsOf_eq_map t.rows hrne, colMinsOf_eq_map t.rows hcne, rfl, rfl,
    ?_, ?_, ?_, ?_⟩
  · rw [List.length_zipWith, length_calcProportionalSpace, hr2, hrw, List.length_map]
    exact min_self _
  · rw [List.length_zipWith, length_calcProportionalSpace, hc2, hcw, List.length_map,
      hcolslen]
    exact min_self m
  · rw [hsucc]
    show (successCalls t aw ah rws cws).length = t.rows.length * m
    rw [hcallseq]
    exact hlen
  · intro r c hr hc
    rw [hsucc]
    show (successCalls t aw ah rws cws)[r * m + c]? = _
    rw [hcallseq]
    have hone := hidx r c hr hc
    simp only [Nat.zero_add, List.drop_zero, zero_add] at hone
    exact hone

end Plottable

namespace Plottable

/-- Concrete 2-by-2 example grid from the specification: cell minimum
sizes (w, h) = [[(10,10), (20,10)], [(10,30), (20,30)]], no padding, all
weights unset, all components flexible. -/
def exTable : Table := mkTable
  [[some ⟨10, 10, false, false, false⟩, some ⟨10, 20, false, false, false⟩],
   [some ⟨30, 10, false, false, false⟩, some ⟨30, 20, false, false, false⟩]]

/-- Claim C5, witness: the offset-assignment theorem applied to the
concrete example grid laid out into available size 60-by-60. -/
theorem c5_witness :
    ∃ rws cws rmins cmins rh cwid,
      rowWeightsUsed exTable = some rws ∧ colWeightsUsed exTable = some cws ∧
      rowMinsOf exTable.rows = List.map some rmins ∧
      colMinsOf exTable.rows = List.map some cmins ∧
      rh = List.zipWith (fun a b => a + b)
        (calcProportionalSpace rws (60 - rowMinValue exTable)) rmins ∧
      cwid = List.zipWith (fun a b => a + b)
        (calcProportionalSpace cws (60 - colMinValue exTable)) cmins ∧
      rh.length = exTable.rows.length ∧ cwid.length = 2 ∧
      (computeLayout exTable 0 0 60 60).2.2.length = exTable.rows.length * 2 ∧
      (∀ r c, r < exTable.rows.length → c < 2 →
        (computeLayout exTable 0 0 60 60).2.2[r * 2 + c]? =
          some ⟨r, c, some ((cwid.take c).sum + c * exTable.colPadding),
                some ((rh.take r).sum + r * exTable.rowPadding),
                some (cwid.getD c 0), some (rh.getD r 0)⟩) :=
  c5_offset_assignment exTable 2 0 0 60 60 (by decide) (by decide) (by decide) (by decide)
    (by decide) (by
      have hno : ¬((60 : ℚ) - colMinValue exTable < 0 ∨
          (60 : ℚ) - rowMinValue exTable < 0) := by
        norm_num [exTable, colMinValue, rowMinValue, colMinsOf, rowMinsOf, d3transpose,
          minLen, d3max, d3sumOpt, mkTable, maxLen, List.range_succ, List.filterMap_cons,
          Function.comp, List.foldl_cons, List.foldl_nil]
      obtain ⟨⟨rws, hr1, _⟩, ⟨cws, hc1, _⟩⟩ := tableWeights_some exTable 2 (by decide)
        (by decide) (by decide) (by decide) (by decide)
      rw [computeLayout_success hno hr1 hc1])

end Plottable
